import Mathlib

/-!
Shallow embedding of the UPSC Samachar news aggregation function
(`netlify/functions/news.js`) and verification of the frozen claims
about it.

Modelling conventions:
* JS strings are Lean `String`s (`List Char` under the hood); the
  feed text is ASCII in all fields the pipeline inspects, and
  `String.toLowerCase` is modelled by the basic-latin `Char.toLower`
  (exactly what the code relies on: every keyword and anchor term is
  ASCII lower case).
* A `Date` value is modelled by its parse result: `DateVal.valid ms`
  for a date string that `new Date(·)` parses to `ms` milliseconds
  since the epoch, `DateVal.invalid` for a present but unparseable
  string.  `Date.prototype.toISOString` throws on an invalid date,
  which is modelled by `Except`.
* The network is a function from feed URL to a fetch outcome; a
  non-2xx status, network error, timeout or XML parse failure are all
  collapsed into `FetchOutcome.failure`, since the code treats each of
  them identically (an empty item list for that endpoint).
* JS objects used as string-keyed maps (`grouped`, `topicGrouped`)
  are modelled by insertion-ordered association lists.
-/

/-! ## Basic string machinery (JS `includes`, `toLowerCase`, regex replaces) -/

/-- Does the second list start with the first? -/
def startsWithL : List Char → List Char → Bool
  | [], _ => true
  | _ :: _, [] => false
  | a :: as, b :: bs => a == b && startsWithL as bs

/-- Does the second list contain the first as a contiguous sublist?
(JS `String.prototype.includes`.) -/
def includesChars (p : List Char) : List Char → Bool
  | [] => startsWithL p []
  | c :: s => startsWithL p (c :: s) || includesChars p s

/-- JS `s.includes(p)`. -/
def jsIncludes (s p : String) : Bool := includesChars p.data s.data

/-- JS `s.toLowerCase()` on basic-latin text. -/
def jsToLower (s : String) : String := ⟨s.data.map Char.toLower⟩

/-- Characters matched by the JS `\s` class in the feeds' ASCII text. -/
def isWsChar (c : Char) : Bool := c == ' ' || c == '\t' || c == '\n' || c == '\r'

/-- JS `.replace(/<[^>]*>/g, "")`, one step per consumed character via a
fuel argument (the fuel `l.length` always suffices, each step consumes at
least one character): drop every `<`…`>` span (a span needs a closing `>`;
an unmatched `<` is kept verbatim, as the regex then has no match). -/
def stripTagsFuel : Nat → List Char → List Char
  | _, [] => []
  | 0, l => l
  | fuel + 1, c :: rest =>
    if c == '<' && rest.contains '>' then
      stripTagsFuel fuel ((rest.dropWhile fun d => !(d == '>')).drop 1)
    else c :: stripTagsFuel fuel rest

/-- JS `.replace(/<[^>]*>/g, "")` on a character list. -/
def stripTags (l : List Char) : List Char := stripTagsFuel l.length l

/-- JS `.replace(/\s+/g, " ")` as a left-to-right scan: `prevWs` records
whether the previous character was whitespace, so each maximal whitespace
run contributes exactly one space. -/
def collapseWsAux (prevWs : Bool) : List Char → List Char
  | [] => []
  | c :: rest =>
    if isWsChar c then
      if prevWs then collapseWsAux true rest
      else ' ' :: collapseWsAux true rest
    else c :: collapseWsAux false rest

/-- JS `.replace(/\s+/g, " ")`: collapse each whitespace run to one space. -/
def collapseWs (l : List Char) : List Char := collapseWsAux false l

/-- JS `String.prototype.trim` (over the ASCII whitespace present here). -/
def jsTrim (s : List Char) : List Char :=
  ((s.dropWhile isWsChar).reverse.dropWhile isWsChar).reverse

/-- `title.replace(/<[^>]*>/g, "").trim()` -/
def cleanTitle (s : String) : String := ⟨jsTrim (stripTags s.data)⟩

/-- `rawDesc.replace(/<[^>]*>/g, "").replace(/\s+/g, " ").trim().slice(0, 500)` -/
def cleanDesc (s : String) : String := ⟨(jsTrim (collapseWs (stripTags s.data))).take 500⟩

/-- `category.replace(/<[^>]*>/g, "").trim()` -/
def cleanCat (s : String) : String := ⟨jsTrim (stripTags s.data)⟩

/-! ## Identifier generation (`Buffer.from(...).toString("base64")` pipeline) -/

/-- UTF-8 byte sequence of one character (what `Buffer.from(string)` produces). -/
def utf8Char (c : Char) : List Nat :=
  let n := c.toNat
  if n < 128 then [n]
  else if n < 2048 then [192 + n / 64, 128 + n % 64]
  else if n < 65536 then [224 + n / 4096, 128 + (n / 64) % 64, 128 + n % 64]
  else [240 + n / 262144, 128 + (n / 4096) % 64, 128 + (n / 64) % 64, 128 + n % 64]

/-- UTF-8 bytes of a character list. -/
def utf8Bytes (s : List Char) : List Nat := s.flatMap utf8Char

/-- The standard base64 alphabet. -/
def b64Alphabet : List Char :=
  "ABCDEFGHIJKLMNOPQRSTUVWXYZabcdefghijklmnopqrstuvwxyz0123456789+/".data

/-- The base64 digit for a 6-bit value. -/
def b64Char (n : Nat) : Char := b64Alphabet.getD n 'A'

/-- Standard base64 encoding with `=` padding (`Buffer.toString("base64")`). -/
def base64Encode : List Nat → List Char
  | [] => []
  | [a] => [b64Char (a / 4), b64Char (a % 4 * 16), '=', '=']
  | [a, b] => [b64Char (a / 4), b64Char (a % 4 * 16 + b / 16), b64Char (b % 16 * 4), '=']
  | a :: b :: c :: rest =>
    b64Char (a / 4) :: b64Char (a % 4 * 16 + b / 16) ::
      b64Char (b % 16 * 4 + c / 64) :: b64Char (c % 64) :: base64Encode rest

/-- Characters kept by `.replace(/[^a-zA-Z0-9]/g, "")`. -/
def isAlnumChar (c : Char) : Bool :=
  ('a' ≤ c && c ≤ 'z') || ('A' ≤ c && c ≤ 'Z') || ('0' ≤ c && c ≤ '9')

/-- `Buffer.from((link || title).slice(0, 80)).toString("base64")
      .replace(/[^a-zA-Z0-9]/g, "").slice(0, 24)` -/
def mkId (link title : String) : String :=
  let src := (if link = "" then title else link).data.take 80
  ⟨((base64Encode (utf8Bytes src)).filter isAlnumChar).take 24⟩

/-! ## Static registries (`RSS_SOURCES`, `UPSC_TOPICS`) -/

structure Source where
  id : String
  name : String
  fullName : String
  color : String
  feeds : List String
deriving DecidableEq

def srcHindu : Source :=
  { id := "hindu", name := "The Hindu", fullName := "The Hindu", color := "#DC2626",
    feeds := [
      "https://www.thehindu.com/news/national/feeder/default.rss",
      "https://www.thehindu.com/opinion/feeder/default.rss",
      "https://www.thehindu.com/sci-tech/feeder/default.rss",
      "https://www.thehindu.com/business/Economy/feeder/default.rss",
      "https://www.thehindu.com/news/international/feeder/default.rss"] }

def srcIndianExpress : Source :=
  { id := "indianexpress", name := "Indian Express", fullName := "The Indian Express", color := "#2563EB",
    feeds := [
      "https://indianexpress.com/section/india/feed/",
      "https://indianexpress.com/section/opinion/feed/",
      "https://indianexpress.com/section/explained/feed/",
      "https://indianexpress.com/section/economy/feed/",
      "https://indianexpress.com/section/world/feed/"] }

def srcEconomicTimes : Source :=
  { id := "et", name := "Economic Times", fullName := "The Economic Times", color := "#059669",
    feeds := [
      "https://economictimes.indiatimes.com/news/economy/rssfeeds/1373380680.cms",
      "https://economictimes.indiatimes.com/news/politics-and-nation/rssfeeds/1052732854.cms",
      "https://economictimes.indiatimes.com/environment/rssfeeds/22977979.cms",
      "https://economictimes.indiatimes.com/news/india/rssfeeds/13357270.cms"] }

def RSS_SOURCES : List Source := [srcHindu, srcIndianExpress, srcEconomicTimes]

def UPSC_TOPICS : List (String × List String) := [
  ("Polity & Governance", ["parliament","constitution","supreme court","high court","election","amendment","bill","act","ministry","government","cabinet","president","governor","lok sabha","rajya sabha","judiciary","panchayat","governance","reform","policy","commission","ordinance"]),
  ("Economy", ["gdp","inflation","rbi","sebi","budget","fiscal","monetary","repo rate","economy","trade","export","import","fdi","startup","msme","agriculture","msp","niti aayog","economic","tax","gst","growth","market","rupee","investment","revenue","finance","bank"]),
  ("Environment & Ecology", ["climate","biodiversity","forest","wildlife","pollution","carbon","emission","renewable","solar","ozone","ramsar","tiger","elephant","coral","wetland","deforestation","net zero","cop","ipcc","ecology","conservation","environment","water","river","drought"]),
  ("Science & Technology", ["isro","space","nasa","satellite","ai","artificial intelligence","quantum","nuclear","research","technology","5g","semiconductor","drone","cyber","digital","blockchain","genomics","innovation","patent","rocket","launch"]),
  ("International Relations", ["bilateral","treaty","summit","united nations","world bank","imf","wto","g20","brics","sco","asean","nato","geopolitics","diplomacy","foreign","sanctions","agreement","alliance","visit","mou","quad"]),
  ("Social Issues", ["poverty","welfare","scheme","education","health","nutrition","women","child","tribal","dalit","minority","reservation","caste","disability","elderly","hunger","literacy","inequality","yojana","programme"]),
  ("Defence & Security", ["defence","military","army","navy","air force","border","security","terrorism","naxal","insurgency","weapon","missile","drdo","iaf","coast guard","exercise","combat","strategic"]),
  ("Infrastructure & Development", ["railway","highway","port","airport","metro","smart city","urban","housing","construction","energy","power","grid","infrastructure","expressway","corridor","project","bridge","dam"])]

def ALL_KEYWORDS : List String := (UPSC_TOPICS.map Prod.snd).flatten

/-- `Object.keys(UPSC_TOPICS)`. -/
def TOPIC_NAMES : List String := UPSC_TOPICS.map Prod.fst

/-! ## Relevance and classification -/

/-- The `for (const [topic, keywords] of Object.entries(UPSC_TOPICS))` loop
body of `detectTopics`: push each topic whose keyword list has a member
contained in the text. -/
def detectTopicsLoop (text : String) : List (String × List String) → List String
  | [] => []
  | (topic, keywords) :: rest =>
    if keywords.any fun k => jsIncludes text k then
      topic :: detectTopicsLoop text rest
    else detectTopicsLoop text rest

/-- `detectTopics(title, description)`. -/
def detectTopics (title description : String) : List String :=
  let text := jsToLower (title ++ " " ++ description)
  let matched := detectTopicsLoop text UPSC_TOPICS
  if matched.isEmpty then ["General"] else matched.take 3

/-- `isRelevant(title, description)`. -/
def isRelevant (title description : String) : Bool :=
  let text := jsToLower (title ++ " " ++ description)
  (ALL_KEYWORDS.any fun k => jsIncludes text k) ||
    jsIncludes text "india" || jsIncludes text "government"

/-! ## Feed items and the parser (`parseFeed`) -/

/-- A date-bearing feed field, modelled by its `new Date(·)` parse result:
`valid ms` for a string parsing to `ms` milliseconds since the epoch,
`invalid` for a present but unparseable string.  An absent (or empty, hence
falsy) field is `Option.none` at the use site. -/
inductive DateVal where
  | valid (ms : Nat)
  | invalid
deriving DecidableEq

/-- One raw `<item>`/`<entry>` as it comes out of the XML parser, with the
alternative-location resolution (`item.title?._ || item.title`,
link `href` versus text, description/summary/content) already collapsed
into one field each, since the claims do not distinguish the alternates. -/
structure RawItem where
  title : String
  description : String
  link : String
  pubDate : Option DateVal
  updated : Option DateVal
  dcDate : Option DateVal
  category : String
  imageUrl : String
deriving DecidableEq

/-- A normalized article object.  `pubDate` holds the instant (ms since
epoch) denoted by the ISO-8601 string the code stores; `new Date(iso)`
recovers exactly this number, so the sort comparator reads it back. -/
structure Item where
  id : String
  title : String
  description : String
  link : String
  pubDate : Nat
  source : String
  sourceName : String
  sourceFullName : String
  sourceColor : String
  category : String
  topics : List String
  imageUrl : String
deriving DecidableEq

/-- `item.pubDate || item.updated || item["dc:date"] || new Date().toISOString()`:
first present field wins (a present-but-unparseable string is truthy and
stops the chain); if all are absent the current time is used, which is a
valid date. -/
def resolveRawDate (it : RawItem) (now : Nat) : DateVal :=
  ((it.pubDate.orElse fun _ => it.updated).orElse fun _ => it.dcDate).getD (DateVal.valid now)

/-- `new Date(raw).toISOString()`: yields the instant for a parseable date
and throws `RangeError: Invalid time value` on an invalid one. -/
def toIso : DateVal → Except String Nat
  | DateVal.valid ms => Except.ok ms
  | DateVal.invalid => Except.error "Invalid time value"

/-- The guard `if (!title || !isRelevant(title, description)) return null`. -/
def passesChecks (it : RawItem) : Bool :=
  !(cleanTitle it.title == "") && isRelevant (cleanTitle it.title) (cleanDesc it.description)

/-- The object literal returned for one raw item, given the resolved
publish instant `ms`. -/
def mkNorm (it : RawItem) (src : Source) (ms : Nat) : Item :=
  { id := mkId it.link (cleanTitle it.title),
    title := cleanTitle it.title,
    description := cleanDesc it.description,
    link := it.link,
    pubDate := ms,
    source := src.id,
    sourceName := src.name,
    sourceFullName := src.fullName,
    sourceColor := src.color,
    category := if cleanCat it.category = "" then "General" else cleanCat it.category,
    topics := detectTopics (cleanTitle it.title) (cleanDesc it.description),
    imageUrl := it.imageUrl }

/-- The body of the `.map` callback in `parseFeed`: `null` (here `none`)
for a dropped item, the normalized object otherwise; evaluating the
object literal converts the resolved date and can throw. -/
def normalizeItem (it : RawItem) (src : Source) (now : Nat) : Except String (Option Item) :=
  if passesChecks it then
    match toIso (resolveRawDate it now) with
    | Except.ok ms => Except.ok (some (mkNorm it src ms))
    | Except.error e => Except.error e
  else Except.ok none

/-- `items.slice(0, 20).map(...).filter(Boolean)` with exception
propagation: the first throwing item aborts the whole traversal. -/
def traverseItems (l : List RawItem) (src : Source) (now : Nat) : Except String (List Item) :=
  match l with
  | [] => Except.ok []
  | it :: rest =>
    match normalizeItem it src now with
    | Except.error e => Except.error e
    | Except.ok o =>
      match traverseItems rest src now with
      | Except.error e => Except.error e
      | Except.ok out =>
        Except.ok (match o with | some x => x :: out | none => out)

/-- Outcome of fetching one endpoint.  `failure` covers a non-2xx status
(the `if (!response.ok) return []` early return), a network error, the
9-second abort, and an XML parse exception (all reach `return []`);
`success items` is the item/entry list the XML parser produced. -/
inductive FetchOutcome where
  | failure
  | success (items : List RawItem)
deriving DecidableEq

/-- `parseFeed(url, source)`: on any failure the endpoint contributes `[]`;
on success the first 20 raw items are normalized, and an exception thrown
while normalizing (an unparseable present date) is caught by the
surrounding `try`/`catch`, which also returns `[]`. -/
def parseFeed (o : FetchOutcome) (src : Source) (now : Nat) : List Item :=
  match o with
  | FetchOutcome.failure => []
  | FetchOutcome.success items =>
    match traverseItems (items.take 20) src now with
    | Except.ok out => out
    | Except.error _ => []

/-! ## The aggregation handler -/

/-- The dedup key: `a.title.toLowerCase().replace(/[^a-z0-9]/g, "").slice(0, 60)`. -/
def dedupKey (t : String) : String :=
  ⟨((jsToLower t).data.filter fun c => ('a' ≤ c && c ≤ 'z') || ('0' ≤ c && c ≤ '9')).take 60⟩

/-- The dedup `filter` with its `seen` set: drop falsy-titled items, keep
the first item per key. -/
def dedupeAux (seen : List String) (l : List Item) : List Item :=
  match l with
  | [] => []
  | a :: rest =>
    if a.title = "" then dedupeAux seen rest
    else if seen.contains (dedupKey a.title) then dedupeAux seen rest
    else a :: dedupeAux (dedupKey a.title :: seen) rest

/-- `allArticles.filter(...)` with an initially empty `seen` set. -/
def dedupe (l : List Item) : List Item := dedupeAux [] l

/-- The sort comparator `(a, b) => new Date(b.pubDate) - new Date(a.pubDate)`
as a "may come first" relation: `a` may precede `b` exactly when the
comparator returns `≤ 0`, i.e. `b.pubDate ≤ a.pubDate`. -/
def byDateDesc (a b : Item) : Prop := b.pubDate ≤ a.pubDate

instance : DecidableRel byDateDesc := fun a b => Nat.decLe b.pubDate a.pubDate

instance : IsTotal Item byDateDesc := ⟨fun a b => Nat.le_total b.pubDate a.pubDate⟩

instance : IsTrans Item byDateDesc := ⟨fun _ _ _ h1 h2 => Nat.le_trans h2 h1⟩

/-- `deduped.sort((a, b) => new Date(b.pubDate) - new Date(a.pubDate))`.
`Array.prototype.sort` is required to be stable, and for a consistent
comparator a stable sort has a unique result, so any stable sorting
algorithm models it; insertion sort is used here. -/
def sortArticles (l : List Item) : List Item := l.insertionSort byDateDesc

/-- `if (grouped[a.source]) grouped[a.source].push(a)`: append to the list
of an existing key, do nothing when the key is absent. -/
def pushIfKey (m : List (String × List Item)) (k : String) (v : Item) : List (String × List Item) :=
  m.map fun kv => if kv.1 = k then (kv.1, kv.2 ++ [v]) else kv

/-- `if (!topicGrouped[t]) topicGrouped[t] = []; topicGrouped[t].push(a)`:
append to an existing key or create it at the end (JS insertion order). -/
def pushAssoc (m : List (String × List Item)) (k : String) (v : Item) : List (String × List Item) :=
  match m with
  | [] => [(k, [v])]
  | kv :: rest => if kv.1 = k then (kv.1, kv.2 ++ [v]) :: rest else kv :: pushAssoc rest k v

/-- `grouped`: one (possibly empty) list per registered source id,
populated from the deduplicated sorted list. -/
def buildGrouped (d : List Item) : List (String × List Item) :=
  d.foldl (fun m a => pushIfKey m a.source a) (RSS_SOURCES.map fun s => (s.id, []))

/-- `topicGrouped`: lazily created per-topic lists, one push per topic
label an item carries. -/
def buildTopicGrouped (d : List Item) : List (String × List Item) :=
  d.foldl (fun m a => a.topics.foldl (fun m2 t => pushAssoc m2 t a) m) []

/-- The JSON body (plus status code) of the aggregation response. -/
structure Response where
  statusCode : Nat
  articles : List Item
  grouped : List (String × List Item)
  topicGrouped : List (String × List Item)
  sources : List (String × String × String × String)
  topics : List String
  lastUpdated : Nat
  total : Nat
deriving DecidableEq

/-- The aggregation steps of the handler, applied to the merged list of
all fulfilled per-endpoint results (`allArticles`): dedup, in-place sort,
grouping from the sorted deduplicated list, cap at 250, count. -/
def handlerBody (allArticles : List Item) (now : Nat) : Response :=
  let deduped := dedupe allArticles
  let sorted := sortArticles deduped
  { statusCode := 200,
    articles := sorted.take 250,
    grouped := buildGrouped sorted,
    topicGrouped := buildTopicGrouped sorted,
    sources := RSS_SOURCES.map fun s => (s.id, s.name, s.fullName, s.color),
    topics := TOPIC_NAMES,
    lastUpdated := now,
    total := sorted.length }

/-- `RSS_SOURCES.flatMap(source => source.feeds.map(url => parseFeed(url, source)))`,
with each promise settling to its item list (`parseFeed` never rejects);
`Promise.allSettled` keeps declaration order. -/
def endpointResults (net : String → FetchOutcome) (now : Nat) : List (List Item) :=
  RSS_SOURCES.flatMap fun s => s.feeds.map fun url => parseFeed (net url) s now

/-- The full handler for a GET request: fetch every endpoint, merge the
fulfilled results in order, aggregate.  The `try` body cannot throw (every
exception is caught inside `parseFeed`), so the 500 branch is unreachable
and the status is always 200. -/
def handler (net : String → FetchOutcome) (now : Nat) : Response :=
  handlerBody (endpointResults net now).flatten now

/-- An item appears somewhere in the response payload: in the top-level
`articles` list, in a `grouped` list, or in a `topicGrouped` list. -/
def inResponse (r : Response) (a : Item) : Prop :=
  a ∈ r.articles ∨ (∃ kl ∈ r.grouped, a ∈ kl.2) ∨ ∃ kl ∈ r.topicGrouped, a ∈ kl.2

instance (r : Response) (a : Item) : Decidable (inResponse r a) :=
  inferInstanceAs (Decidable
    (a ∈ r.articles ∨ (∃ kl ∈ r.grouped, a ∈ kl.2) ∨ ∃ kl ∈ r.topicGrouped, a ∈ kl.2))

/-! ## Spec-side definition used for the classification claim -/

/-- Modelled from the spec's words in §4.3: "evaluate each topic's keyword
set in a fixed enumeration order against the case-folded concatenated
text; a topic matches if any of its keywords is a substring" — the list of
matching topic names in taxonomy order, with no truncation and no
fallback.  Compared against the code's `detectTopics`. -/
def specMatchedTopics (title description : String) : List String :=
  (UPSC_TOPICS.filter fun tk =>
    tk.2.any fun k => jsIncludes (jsToLower (title ++ " " ++ description)) k).map Prod.fst

/-! ## Concrete inputs used by witnesses and counterexamples -/

/-- The spec's §8 example entry: title "Parliament passes new bill on GST",
description "reform". -/
def oneItemRaw : RawItem :=
  { title := "Parliament passes new bill on GST", description := "reform",
    link := "https://example.org/gst-bill", pubDate := some (DateVal.valid 1700000000000),
    updated := none, dcDate := none, category := "", imageUrl := "" }

/-- A network where exactly one endpoint succeeds, with one relevant item. -/
def oneItemNet : String → FetchOutcome := fun url =>
  if url = "https://www.thehindu.com/news/national/feeder/default.rss" then
    FetchOutcome.success [oneItemRaw]
  else FetchOutcome.failure

/-- Two relevant raw items from different sources whose titles collide on
the dedup key (`"gstbill"`). -/
def dupRawA : RawItem :=
  { title := "GST Bill", description := "", link := "https://a.example/1",
    pubDate := some (DateVal.valid 100), updated := none, dcDate := none,
    category := "", imageUrl := "" }

def dupRawB : RawItem :=
  { title := "GST BILL!", description := "", link := "https://b.example/2",
    pubDate := some (DateVal.valid 200), updated := none, dcDate := none,
    category := "", imageUrl := "" }

/-- A network where a Hindu endpoint and an Indian Express endpoint each
return one item, and their titles collide on the dedup key. -/
def dupTitleNet : String → FetchOutcome := fun url =>
  if url = "https://www.thehindu.com/news/national/feeder/default.rss" then
    FetchOutcome.success [dupRawA]
  else if url = "https://indianexpress.com/section/india/feed/" then
    FetchOutcome.success [dupRawB]
  else FetchOutcome.failure

/-- An item relevant only through the anchor term "india": its text
contains no topic keyword, so it is classified `["General"]`. -/
def anchorRaw : RawItem :=
  { title := "india zq", description := "", link := "https://c.example/3",
    pubDate := some (DateVal.valid 5), updated := none, dcDate := none,
    category := "", imageUrl := "" }

/-- A network delivering only the anchor-term-only item. -/
def anchorOnlyNet : String → FetchOutcome := fun url =>
  if url = "https://www.thehindu.com/news/national/feeder/default.rss" then
    FetchOutcome.success [anchorRaw]
  else FetchOutcome.failure

/-- All 14 registered feed endpoints in declaration order. -/
def ALL_FEED_URLS : List String := RSS_SOURCES.flatMap fun s => s.feeds

/-- Zero-padded three-digit decimal rendering of `n < 1000`. -/
def pad3 (n : Nat) : String :=
  (if n < 10 then "00" else if n < 100 then "0" else "") ++ toString n

/-- The `n`-th of 280 pairwise-distinct relevant raw items: titles
`"000 bill"` … `"279 bill"` give dedup keys that strictly increase in
fetch order; item 0 has the strictly smallest publish instant and its own
link `"TT"`, while all others share the link `"L"` (hence one shared
identifier, distinct from item 0's). -/
def overflowRaw (n : Nat) : RawItem :=
  { title := pad3 n ++ " bill", description := "",
    link := if n = 0 then "TT" else "L",
    pubDate := some (DateVal.valid (if n = 0 then 5 else 1000000 - n)),
    updated := none, dcDate := none,
    category := "", imageUrl := "" }

/-- A network where every one of the 14 endpoints returns 20 distinct
relevant items: 280 deduplicated articles, 30 beyond the 250 cap. -/
def overflowNet (url : String) : FetchOutcome :=
  match ALL_FEED_URLS.findIdx? (fun u => u == url) with
  | some k => FetchOutcome.success ((List.range 20).map fun i => overflowRaw (k * 20 + i))
  | none => FetchOutcome.failure

/-- The normalized form of the first overflow item (`overflowRaw 0`,
link "TT", publish instant 5): strictly oldest of the 280, hence ranked
last by the descending sort and beyond the 250 cap. -/
def overflowTarget : Item := mkNorm (overflowRaw 0) srcHindu 5

/-- The dedup key of an item read as a base-256 number: equal keys give
equal numbers, so strictly increasing numbers witness pairwise-distinct
keys with only a linear scan. -/
def keyNum (x : Item) : Nat :=
  (dedupKey x.title).data.foldl (fun acc c => acc * 256 + c.toNat) 0

/-- Is the list strictly increasing step by step? -/
def chainLt : List Nat → Bool
  | [] => true
  | [_] => true
  | a :: b :: rest => decide (a < b) && chainLt (b :: rest)

/-- A relevant, titled raw item whose present publish-date string is
unparseable. -/
def badDateRaw : RawItem :=
  { title := "Parliament session", description := "", link := "https://d.example/4",
    pubDate := some DateVal.invalid, updated := none, dcDate := none,
    category := "", imageUrl := "" }

/-- A relevant, titled raw item with a parseable publish date. -/
def goodDateRaw : RawItem :=
  { title := "Cabinet reshuffle", description := "", link := "https://d.example/5",
    pubDate := some (DateVal.valid 42), updated := none, dcDate := none,
    category := "", imageUrl := "" }

/-- A relevant, titled raw item with no publish-time field at all. -/
def absentDateRaw : RawItem :=
  { title := "Election results", description := "", link := "https://d.example/6",
    pubDate := none, updated := none, dcDate := none,
    category := "", imageUrl := "" }

/-- A raw item whose text contains no topic keyword and neither anchor
term: it fails the relevance filter. -/
def irrelevantRaw : RawItem :=
  { title := "zzz", description := "yyy", link := "",
    pubDate := none, updated := none, dcDate := none,
    category := "", imageUrl := "" }

/-! ## Lemma kit: provenance of items through the pipeline -/


theorem containsIffMem {l : List String} {s : String} :
    l.contains s = true ↔ s ∈ l := by
  simp [List.contains, List.elem_iff]

theorem mem_dedupeAux {seen : List String} {l : List Item} {x : Item}
    (h : x ∈ dedupeAux seen l) : x ∈ l := by
  induction l generalizing seen with
  | nil => simp [dedupeAux] at h
  | cons a rest ih =>
    rw [dedupeAux] at h
    by_cases h1 : a.title = ""
    · rw [if_pos h1] at h
      exact List.mem_cons_of_mem a (ih h)
    · rw [if_neg h1] at h
      by_cases h2 : seen.contains (dedupKey a.title) = true
      · rw [if_pos h2] at h
        exact List.mem_cons_of_mem a (ih h)
      · rw [if_neg h2] at h
        rcases List.mem_cons.1 h with h3 | h3
        · exact h3 ▸ List.mem_cons_self a rest
        · exact List.mem_cons_of_mem a (ih h3)

theorem dedupeAux_key_notin {seen : List String} {l : List Item} {x : Item}
    (h : x ∈ dedupeAux seen l) : ¬ dedupKey x.title ∈ seen := by
  induction l generalizing seen with
  | nil => simp [dedupeAux] at h
  | cons a rest ih =>
    rw [dedupeAux] at h
    by_cases h1 : a.title = ""
    · rw [if_pos h1] at h
      exact ih h
    · rw [if_neg h1] at h
      by_cases h2 : seen.contains (dedupKey a.title) = true
      · rw [if_pos h2] at h
        exact ih h
      · rw [if_neg h2] at h
        rcases List.mem_cons.1 h with h3 | h3
        · subst h3
          exact fun hc => h2 (containsIffMem.2 hc)
        · intro hc
          exact ih h3 (List.mem_cons_of_mem _ hc)

theorem dedupeAux_pairwise (seen : List String) (l : List Item) :
    (dedupeAux seen l).Pairwise
      fun a b => dedupKey a.title ≠ dedupKey b.title := by
  induction l generalizing seen with
  | nil => simp [dedupeAux]
  | cons a rest ih =>
    rw [dedupeAux]
    by_cases h1 : a.title = ""
    · rw [if_pos h1]
      exact ih seen
    · rw [if_neg h1]
      by_cases h2 : seen.contains (dedupKey a.title) = true
      · rw [if_pos h2]
        exact ih seen
      · rw [if_neg h2]
        refine List.Pairwise.cons ?_ (ih (dedupKey a.title :: seen))
        intro b hb heq
        exact dedupeAux_key_notin hb (heq ▸ List.mem_cons_self _ _)

theorem dedupeAux_first {seen : List String} {l : List Item} {x : Item}
    (h : x ∈ dedupeAux seen l) :
    ∃ pre post, l = pre ++ x :: post ∧
      ∀ b ∈ pre, b.title = "" ∨ dedupKey b.title ≠ dedupKey x.title ∨
        dedupKey b.title ∈ seen := by
  induction l generalizing seen with
  | nil => simp [dedupeAux] at h
  | cons a rest ih =>
    rw [dedupeAux] at h
    by_cases h1 : a.title = ""
    · rw [if_pos h1] at h
      obtain ⟨pre, post, hsplit, hpre⟩ := ih h
      refine ⟨a :: pre, post, by simp [hsplit], ?_⟩
      intro b hb
      rcases List.mem_cons.1 hb with hb | hb
      · exact Or.inl (hb ▸ h1)
      · exact hpre b hb
    · rw [if_neg h1] at h
      by_cases h2 : seen.contains (dedupKey a.title) = true
      · rw [if_pos h2] at h
        obtain ⟨pre, post, hsplit, hpre⟩ := ih h
        refine ⟨a :: pre, post, by simp [hsplit], ?_⟩
        intro b hb
        rcases List.mem_cons.1 hb with hb | hb
        · exact Or.inr (Or.inr (hb ▸ containsIffMem.1 h2))
        · exact hpre b hb
      · rw [if_neg h2] at h
        rcases List.mem_cons.1 h with h3 | h3
        · exact ⟨[], rest, by simp [h3], by simp⟩
        · obtain ⟨pre, post, hsplit, hpre⟩ := ih h3
          have hkx := dedupeAux_key_notin h3
          rw [List.mem_cons, not_or] at hkx
          refine ⟨a :: pre, post, by simp [hsplit], ?_⟩
          intro b hb
          rcases List.mem_cons.1 hb with hb | hb
          · subst hb
            exact Or.inr (Or.inl fun heq => hkx.1 heq.symm)
          · rcases hpre b hb with hc | hc | hc
            · exact Or.inl hc
            · exact Or.inr (Or.inl hc)
            · rcases List.mem_cons.1 hc with hc2 | hc2
              · exact Or.inr (Or.inl (hc2 ▸ fun heq => hkx.1 heq.symm))
              · exact Or.inr (Or.inr hc2)

theorem mem_sortArticles {l : List Item} {x : Item} :
    x ∈ sortArticles l ↔ x ∈ l := List.mem_insertionSort byDateDesc

theorem sortArticles_sorted (l : List Item) :
    (sortArticles l).Pairwise byDateDesc :=
  List.sorted_insertionSort byDateDesc l

theorem sortArticles_pairwise_ne (l : List Item)
    (h : l.Pairwise fun a b => dedupKey a.title ≠ dedupKey b.title) :
    (sortArticles l).Pairwise fun a b => dedupKey a.title ≠ dedupKey b.title :=
  ((List.perm_insertionSort byDateDesc l).pairwise_iff
    fun hab heq => hab heq.symm).2 h

theorem sortArticles_length (l : List Item) :
    (sortArticles l).length = l.length :=
  List.length_insertionSort byDateDesc l

/-- Every item of a `grouped` list of `buildGrouped d` is an item of `d`. -/
theorem mem_buildGrouped {d : List Item} {kl : String × List Item} {x : Item}
    (hkl : kl ∈ buildGrouped d) (hx : x ∈ kl.2) : x ∈ d := by
  have main : ∀ (d2 : List Item) (m : List (String × List Item)),
      (∀ kl2 ∈ m, ∀ y ∈ kl2.2, y ∈ d) → (∀ y ∈ d2, y ∈ d) →
      ∀ kl2 ∈ d2.foldl (fun m a => pushIfKey m a.source a) m, ∀ y ∈ kl2.2, y ∈ d := by
    intro d2
    induction d2 with
    | nil => intro m hm _ kl2 hkl2 y hy; exact hm kl2 hkl2 y hy
    | cons a rest ih =>
      intro m hm hd2 kl2 hkl2 y hy
      rw [List.foldl_cons] at hkl2
      refine ih (pushIfKey m a.source a) ?_ (fun y2 hy2 => hd2 y2 (List.mem_cons_of_mem a hy2)) kl2 hkl2 y hy
      intro kl3 hkl3 y3 hy3
      simp only [pushIfKey, List.mem_map] at hkl3
      obtain ⟨kv, hkv, hkl3⟩ := hkl3
      by_cases hk : kv.1 = a.source
      · rw [if_pos hk] at hkl3
        rw [← hkl3] at hy3
        rcases List.mem_append.1 hy3 with hy3 | hy3
        · exact hm kv hkv y3 hy3
        · rw [List.mem_singleton.1 hy3]
          exact hd2 a (List.mem_cons_self a rest)
      · rw [if_neg hk] at hkl3
        exact hm kv hkv y3 (hkl3 ▸ hy3)
  rw [buildGrouped] at hkl
  exact main d (RSS_SOURCES.map fun s => (s.id, [])) (by simp) (fun y hy => hy) kl hkl x hx

/-- Every item of a `topicGrouped` list of `buildTopicGrouped d` is an
item of `d`, and every key is a topic label of an item of `d`. -/
theorem mem_buildTopicGrouped {d : List Item} {kl : String × List Item}
    (hkl : kl ∈ buildTopicGrouped d) :
    (∀ x ∈ kl.2, x ∈ d) ∧ ∃ x ∈ d, kl.1 ∈ x.topics := by
  have push : ∀ (m : List (String × List Item)) (t : String) (v : Item)
      (P : String → Prop) (Q : Item → Prop),
      (∀ kl2 ∈ m, (∀ y ∈ kl2.2, Q y) ∧ P kl2.1) → Q v → P t →
      ∀ kl2 ∈ pushAssoc m t v, (∀ y ∈ kl2.2, Q y) ∧ P kl2.1 := by
    intro m
    induction m with
    | nil =>
      intro t v P Q _ hv ht kl2 hkl2
      rw [pushAssoc] at hkl2
      rcases List.mem_singleton.1 hkl2 with h2
      subst h2
      exact ⟨fun y hy => (List.mem_singleton.1 hy) ▸ hv, ht⟩
    | cons kv rest ih =>
      intro t v P Q hm hv ht kl2 hkl2
      rw [pushAssoc] at hkl2
      by_cases hk : kv.1 = t
      · rw [if_pos hk] at hkl2
        rcases List.mem_cons.1 hkl2 with h2 | h2
        · subst h2
          refine ⟨?_, (hm kv (List.mem_cons_self kv rest)).2⟩
          intro y hy
          rcases List.mem_append.1 hy with hy | hy
          · exact (hm kv (List.mem_cons_self kv rest)).1 y hy
          · exact (List.mem_singleton.1 hy) ▸ hv
        · exact hm kl2 (List.mem_cons_of_mem kv h2)
      · rw [if_neg hk] at hkl2
        rcases List.mem_cons.1 hkl2 with h2 | h2
        · exact h2 ▸ hm kv (List.mem_cons_self kv rest)
        · exact ih t v P Q (fun kl3 hkl3 => hm kl3 (List.mem_cons_of_mem kv hkl3)) hv ht kl2 h2
  have main : ∀ (d2 : List Item) (m : List (String × List Item)),
      (∀ kl2 ∈ m, (∀ y ∈ kl2.2, y ∈ d) ∧ ∃ x ∈ d, kl2.1 ∈ x.topics) →
      (∀ y ∈ d2, y ∈ d) →
      ∀ kl2 ∈ d2.foldl (fun m a => a.topics.foldl (fun m2 t => pushAssoc m2 t a) m) m,
        (∀ y ∈ kl2.2, y ∈ d) ∧ ∃ x ∈ d, kl2.1 ∈ x.topics := by
    intro d2
    induction d2 with
    | nil => intro m hm _ kl2 hkl2; exact hm kl2 hkl2
    | cons a rest ih =>
      intro m hm hd2 kl2 hkl2
      rw [List.foldl_cons] at hkl2
      have ha : a ∈ d := hd2 a (List.mem_cons_self a rest)
      have inner : ∀ (ts : List String) (m2 : List (String × List Item)),
          (∀ kl3 ∈ m2, (∀ y ∈ kl3.2, y ∈ d) ∧ ∃ x ∈ d, kl3.1 ∈ x.topics) →
          (∀ t ∈ ts, t ∈ a.topics) →
          ∀ kl3 ∈ ts.foldl (fun m2 t => pushAssoc m2 t a) m2,
            (∀ y ∈ kl3.2, y ∈ d) ∧ ∃ x ∈ d, kl3.1 ∈ x.topics := by
        intro ts
        induction ts with
        | nil => intro m2 hm2 _ kl3 hkl3; exact hm2 kl3 hkl3
        | cons t ts2 ih2 =>
          intro m2 hm2 hts kl3 hkl3
          rw [List.foldl_cons] at hkl3
          refine ih2 _ ?_ (fun t2 ht2 => hts t2 (List.mem_cons_of_mem t ht2)) kl3 hkl3
          exact push m2 t a (fun k => ∃ x ∈ d, k ∈ x.topics) (fun y => y ∈ d) hm2 ha
            ⟨a, ha, hts t (List.mem_cons_self t ts2)⟩
      exact ih (a.topics.foldl (fun m2 t => pushAssoc m2 t a) m)
        (fun kl3 hkl3 => inner a.topics m hm (fun t ht => ht) kl3 hkl3)
        (fun y2 hy2 => hd2 y2 (List.mem_cons_of_mem a hy2)) kl2 hkl2
  rw [buildTopicGrouped] at hkl
  exact main d [] (by simp) (fun y hy => hy) kl hkl

/-- Anything appearing anywhere in the `handlerBody` response is a member
of the sorted deduplicated list. -/
theorem inResponse_handlerBody {l : List Item} {now : Nat} {a : Item}
    (h : inResponse (handlerBody l now) a) : a ∈ sortArticles (dedupe l) := by
  rcases h with h | ⟨kl, hkl, ha⟩ | ⟨kl, hkl, ha⟩
  · exact List.mem_of_mem_take h
  · exact mem_buildGrouped hkl ha
  · exact (mem_buildTopicGrouped hkl).1 a ha

/-- Anything in the sorted deduplicated list came from the merged input. -/
theorem mem_sort_dedupe {l : List Item} {a : Item}
    (h : a ∈ sortArticles (dedupe l)) : a ∈ l :=
  mem_dedupeAux (mem_sortArticles.1 h)

theorem mem_traverseItems {l : List RawItem} {src : Source} {now : Nat}
    {out : List Item} {x : Item}
    (h : traverseItems l src now = Except.ok out) (hx : x ∈ out) :
    ∃ it ∈ l, normalizeItem it src now = Except.ok (some x) := by
  induction l generalizing out with
  | nil =>
    rw [traverseItems] at h
    cases h
    simp at hx
  | cons it rest ih =>
    rw [traverseItems] at h
    cases hni : normalizeItem it src now with
    | error e => rw [hni] at h; cases h
    | ok o =>
      rw [hni] at h
      cases htr : traverseItems rest src now with
      | error e => rw [htr] at h; cases h
      | ok out2 =>
        rw [htr] at h
        cases o with
        | none =>
          cases h
          obtain ⟨it2, hit2, hn2⟩ := ih htr hx
          exact ⟨it2, List.mem_cons_of_mem it hit2, hn2⟩
        | some y =>
          cases h
          rcases List.mem_cons.1 hx with hx | hx
          · exact ⟨it, List.mem_cons_self it rest, hx ▸ hni⟩
          · obtain ⟨it2, hit2, hn2⟩ := ih htr hx
            exact ⟨it2, List.mem_cons_of_mem it hit2, hn2⟩

theorem normalizeItem_ok_some {it : RawItem} {src : Source} {now : Nat} {x : Item}
    (h : normalizeItem it src now = Except.ok (some x)) :
    passesChecks it = true ∧
      ∃ ms, resolveRawDate it now = DateVal.valid ms ∧ x = mkNorm it src ms := by
  rw [normalizeItem] at h
  by_cases hp : passesChecks it = true
  · rw [if_pos hp] at h
    cases hd : resolveRawDate it now with
    | valid ms =>
      rw [hd, toIso] at h
      cases h
      exact ⟨hp, ms, rfl, rfl⟩
    | invalid => rw [hd, toIso] at h; cases h
  · rw [if_neg hp] at h
    cases h

/-- Every item an endpoint contributes is the normalization of one of its
raw items that passed the title and relevance checks. -/
theorem mem_parseFeed {o : FetchOutcome} {src : Source} {now : Nat} {x : Item}
    (h : x ∈ parseFeed o src now) :
    ∃ it ms, passesChecks it = true ∧
      resolveRawDate it now = DateVal.valid ms ∧ x = mkNorm it src ms := by
  cases o with
  | failure => simp [parseFeed] at h
  | success items =>
    rw [parseFeed] at h
    cases htr : traverseItems (items.take 20) src now with
    | error e => rw [htr] at h; simp at h
    | ok out =>
      rw [htr] at h
      obtain ⟨it, _, hn⟩ := mem_traverseItems htr h
      obtain ⟨hp, ms, hd, hx⟩ := normalizeItem_ok_some hn
      exact ⟨it, ms, hp, hd, hx⟩

theorem mem_endpointResults {net : String → FetchOutcome} {now : Nat} {x : Item}
    (h : x ∈ (endpointResults net now).flatten) :
    ∃ src ∈ RSS_SOURCES, ∃ url ∈ src.feeds, x ∈ parseFeed (net url) src now := by
  rw [endpointResults] at h
  rw [List.mem_flatten] at h
  obtain ⟨l2, hl2, hx⟩ := h
  rw [List.mem_flatMap] at hl2
  obtain ⟨src, hsrc, hl2⟩ := hl2
  rw [List.mem_map] at hl2
  obtain ⟨url, hurl, hl2⟩ := hl2
  exact ⟨src, hsrc, url, hurl, hl2 ▸ hx⟩

/-- Every item of the sorted deduplicated working list of a `handler`
run is the normalization of a raw item that passed the checks, for one
of the registered sources. -/
theorem handler_sorted_provenance {net : String → FetchOutcome} {now : Nat} {a : Item}
    (h : a ∈ sortArticles (dedupe (endpointResults net now).flatten)) :
    ∃ it src ms, src ∈ RSS_SOURCES ∧ passesChecks it = true ∧
      resolveRawDate it now = DateVal.valid ms ∧ a = mkNorm it src ms := by
  obtain ⟨src, hsrc, url, _, hx⟩ := mem_endpointResults (mem_sort_dedupe h)
  obtain ⟨it, ms, hp, hd, hx2⟩ := mem_parseFeed hx
  exact ⟨it, src, ms, hsrc, hp, hd, hx2⟩

/-- Every item appearing anywhere in a `handler` response is the
normalization of a raw item that passed the checks, for one of the
registered sources. -/
theorem handler_provenance {net : String → FetchOutcome} {now : Nat} {a : Item}
    (h : inResponse (handler net now) a) :
    ∃ it src ms, src ∈ RSS_SOURCES ∧ passesChecks it = true ∧
      resolveRawDate it now = DateVal.valid ms ∧ a = mkNorm it src ms :=
  handler_sorted_provenance
    (inResponse_handlerBody (h : inResponse (handlerBody (endpointResults net now).flatten now) a))

/-- `detectTopics` only pushes names of taxonomy topics. -/
theorem detectTopicsLoop_subset {text : String} {l : List (String × List String)} {t : String}
    (h : t ∈ detectTopicsLoop text l) : t ∈ l.map Prod.fst := by
  induction l with
  | nil => simp [detectTopicsLoop] at h
  | cons tk rest ih =>
    match tk with
    | (topic, keywords) =>
      rw [detectTopicsLoop] at h
      by_cases hm : (keywords.any fun k => jsIncludes text k) = true
      · rw [if_pos hm] at h
        rcases List.mem_cons.1 h with h2 | h2
        · simp [h2]
        · simpa using Or.inr (by simpa using ih h2)
      · rw [if_neg hm] at h
        simpa using Or.inr (by simpa using ih h)

/-- The assigned label list always has between one and three entries. -/
theorem detectTopics_length (title description : String) :
    1 ≤ (detectTopics title description).length ∧
      (detectTopics title description).length ≤ 3 := by
  simp only [detectTopics]
  cases hm : detectTopicsLoop (jsToLower (title ++ " " ++ description)) UPSC_TOPICS with
  | nil => simp
  | cons t ts =>
    simp only [List.isEmpty_cons, Bool.false_eq_true, if_false, List.length_take,
      List.length_cons]
    omega

/-- Every assigned label is a taxonomy name or the fallback label. -/
theorem detectTopics_mem (title description : String) {t : String}
    (h : t ∈ detectTopics title description) :
    t ∈ TOPIC_NAMES ∨ t = "General" := by
  simp only [detectTopics] at h
  cases hm : detectTopicsLoop (jsToLower (title ++ " " ++ description)) UPSC_TOPICS with
  | nil =>
    rw [hm] at h
    simp only [List.isEmpty_nil, if_true] at h
    exact Or.inr (List.mem_singleton.1 h)
  | cons t2 ts =>
    rw [hm] at h
    simp only [List.isEmpty_cons, Bool.false_eq_true, if_false] at h
    exact Or.inl (detectTopicsLoop_subset (hm ▸ List.mem_of_mem_take h))

/-- The classification loop computes exactly the filtered topic names. -/
theorem detectTopicsLoop_eq_filter (text : String) (l : List (String × List String)) :
    detectTopicsLoop text l =
      (l.filter fun tk => tk.2.any fun k => jsIncludes text k).map Prod.fst := by
  induction l with
  | nil => rfl
  | cons tk rest ih =>
    match tk with
    | (topic, keywords) =>
      rw [detectTopicsLoop]
      by_cases hm : (keywords.any fun k => jsIncludes text k) = true
      · rw [if_pos hm]
        simp only [List.filter_cons, hm, if_true, List.map_cons, ih]
      · rw [if_neg hm]
        simp only [List.filter_cons]
        rw [if_neg (by simpa using hm)]
        exact ih

/-- When no raw item of the list resolves to an unparseable date, the
traversal succeeds, and every raw item that passes the checks contributes
its normalization to the output. -/
theorem traverseItems_ok_of_no_invalid {l : List RawItem} {src : Source} {now : Nat}
    (h : ∀ j ∈ l, resolveRawDate j now ≠ DateVal.invalid) :
    ∃ out, traverseItems l src now = Except.ok out ∧
      ∀ it ∈ l, passesChecks it = true →
        ∀ ms, resolveRawDate it now = DateVal.valid ms → mkNorm it src ms ∈ out := by
  induction l with
  | nil => exact ⟨[], rfl, by simp⟩
  | cons j rest ih =>
    obtain ⟨out2, hout2, hmem2⟩ := ih fun j2 hj2 => h j2 (List.mem_cons_of_mem j hj2)
    have hj : resolveRawDate j now ≠ DateVal.invalid := h j (List.mem_cons_self j rest)
    by_cases hp : passesChecks j = true
    · cases hd : resolveRawDate j now with
      | invalid => exact absurd hd hj
      | valid ms0 =>
        have hn : normalizeItem j src now = Except.ok (some (mkNorm j src ms0)) := by
          rw [normalizeItem, if_pos hp, hd, toIso]
        refine ⟨mkNorm j src ms0 :: out2, ?_, ?_⟩
        · rw [traverseItems, hn, hout2]
        · intro it hit hpit ms hms
          rcases List.mem_cons.1 hit with hit | hit
          · subst hit
            rw [hd] at hms
            cases hms
            exact List.mem_cons_self _ _
          · exact List.mem_cons_of_mem _ (hmem2 it hit hpit ms hms)
    · have hn : normalizeItem j src now = Except.ok none := by
        rw [normalizeItem, if_neg hp]
      refine ⟨out2, ?_, ?_⟩
      · rw [traverseItems, hn, hout2]
      · intro it hit hpit ms hms
        rcases List.mem_cons.1 hit with hit | hit
        · subst hit
          exact absurd hpit hp
        · exact hmem2 it hit hpit ms hms

/-- One raw item that passes the checks but has an unparseable resolved
date makes the whole traversal throw. -/
theorem traverseItems_error_of_invalid {l : List RawItem} {src : Source} {now : Nat}
    {it : RawItem} (hit : it ∈ l) (hp : passesChecks it = true)
    (hd : resolveRawDate it now = DateVal.invalid) :
    ∃ e, traverseItems l src now = Except.error e := by
  induction l with
  | nil => simp at hit
  | cons j rest ih =>
    rcases List.mem_cons.1 hit with hj | hj
    · have hn : normalizeItem j src now = Except.error "Invalid time value" := by
        rw [← hj, normalizeItem, if_pos hp, hd, toIso]
      exact ⟨"Invalid time value", by rw [traverseItems, hn]⟩
    · cases hn : normalizeItem j src now with
      | error e => exact ⟨e, by rw [traverseItems, hn]⟩
      | ok o =>
        obtain ⟨e, he⟩ := ih hj
        refine ⟨e, ?_⟩
        rw [traverseItems, hn, he]

/-- Two networks whose endpoints parse to the same item lists give the
same per-endpoint results. -/
theorem endpointResults_congr {net1 net2 : String → FetchOutcome} {now : Nat}
    (h : ∀ s ∈ RSS_SOURCES, ∀ u ∈ s.feeds,
      parseFeed (net1 u) s now = parseFeed (net2 u) s now) :
    endpointResults net1 now = endpointResults net2 now := by
  show (RSS_SOURCES.map fun s => s.feeds.map fun url => parseFeed (net1 url) s now).flatten
      = (RSS_SOURCES.map fun s => s.feeds.map fun url => parseFeed (net2 url) s now).flatten
  exact congrArg List.flatten
    (List.map_congr_left fun s hs => List.map_congr_left fun u hu => h s hs u hu)

/-! ## The claims -/

/-- C4: For every adjacent pair of items in the returned top-level
`articles` list, the earlier item's publish timestamp is greater than or
equal to the later item's (the list is sorted by publish timestamp
descending). -/
theorem claim_C4 (net : String → FetchOutcome) (now : Nat) :
    List.Chain' (fun a b : Item => b.pubDate ≤ a.pubDate) (handler net now).articles := by
  show List.Chain' byDateDesc
    ((sortArticles (dedupe (endpointResults net now).flatten)).take 250)
  rw [List.chain'_iff_pairwise]
  exact List.Pairwise.sublist (List.take_sublist 250 _) (sortArticles_sorted _)

/-- C5: For all sets of feed results, the returned top-level `articles`
list has length at most 250 and at most the reported `total`, and `total`
equals the number of deduplicated articles before the 250 cap. -/
theorem claim_C5 (net : String → FetchOutcome) (now : Nat) :
    (handler net now).articles.length ≤ 250 ∧
    (handler net now).articles.length ≤ (handler net now).total ∧
    (handler net now).total = (dedupe (endpointResults net now).flatten).length := by
  refine ⟨?_, ?_, ?_⟩
  · show ((sortArticles (dedupe (endpointResults net now).flatten)).take 250).length ≤ 250
    rw [List.length_take]
    exact Nat.min_le_left _ _
  · show ((sortArticles (dedupe (endpointResults net now).flatten)).take 250).length ≤
      (sortArticles (dedupe (endpointResults net now).flatten)).length
    rw [List.length_take]
    exact Nat.min_le_right _ _
  · exact sortArticles_length _

/-- C3: For every pair of collected items whose titles normalize to the
same dedup key (case-folded, all non-alphanumeric characters removed,
truncated to 60 characters), at most one of them appears in the response,
and the one kept is the earlier-observed item in fetch-completion order
(the order in which `Promise.allSettled` delivers the per-endpoint
results, i.e. endpoint declaration order). -/
theorem claim_C3 (net : String → FetchOutcome) (now : Nat) :
    (∀ a b, inResponse (handler net now) a → inResponse (handler net now) b →
      dedupKey a.title = dedupKey b.title → a = b) ∧
    ∀ a ∈ (handler net now).articles,
      ∃ pre post, (endpointResults net now).flatten = pre ++ a :: post ∧
        ∀ b ∈ pre, b.title = "" ∨ dedupKey b.title ≠ dedupKey a.title := by
  constructor
  · intro a b ha hb hkey
    by_cases hab : a = b
    · exact hab
    · have hpw := sortArticles_pairwise_ne (dedupe (endpointResults net now).flatten)
        (dedupeAux_pairwise [] (endpointResults net now).flatten)
      have ha2 : a ∈ sortArticles (dedupe (endpointResults net now).flatten) :=
        inResponse_handlerBody ha
      have hb2 : b ∈ sortArticles (dedupe (endpointResults net now).flatten) :=
        inResponse_handlerBody hb
      have hsymm : Symmetric fun a b : Item => dedupKey a.title ≠ dedupKey b.title := by
        intro x y h heq
        exact h heq.symm
      exact absurd hkey (hpw.forall hsymm ha2 hb2 hab)
  · intro a ha
    have ha1 : a ∈ (sortArticles (dedupe (endpointResults net now).flatten)).take 250 := ha
    have ha2 : a ∈ dedupeAux [] (endpointResults net now).flatten :=
      mem_sortArticles.1 (List.mem_of_mem_take ha1)
    obtain ⟨pre, post, hsplit, hpre⟩ := dedupeAux_first ha2
    refine ⟨pre, post, hsplit, ?_⟩
    intro b hb
    rcases hpre b hb with hc | hc | hc
    · exact Or.inl hc
    · exact Or.inr hc
    · simp at hc

/-- C3 witness: with two endpoints delivering items whose titles collide
on the dedup key `"gstbill"`, the response keeps a single item, the one
from the endpoint declared first, which is the first collected item. -/
theorem claim_C3_witness :
    mkNorm dupRawA srcHindu 100 = mkNorm dupRawA srcHindu 100 ∧
    ∃ pre post, (endpointResults dupTitleNet 7).flatten = pre ++ mkNorm dupRawA srcHindu 100 :: post ∧
      ∀ b ∈ pre, b.title = "" ∨ dedupKey b.title ≠ dedupKey (mkNorm dupRawA srcHindu 100).title :=
  ⟨(claim_C3 dupTitleNet 7).1 (mkNorm dupRawA srcHindu 100) (mkNorm dupRawA srcHindu 100)
      (by decide) (by decide) (by decide),
   (claim_C3 dupTitleNet 7).2 (mkNorm dupRawA srcHindu 100) (by decide)⟩

/-- C6: For every feed entry whose concatenated, case-folded
title+description contains no keyword from any topic's keyword set and
neither of the two anchor terms ("india", "government"), no corresponding
article appears anywhere in the response — the entry's normalization is
`null` (here `none`), produced before any article object is built. -/
theorem claim_C6 :
    (∀ (it : RawItem) (src : Source) (now : Nat),
      isRelevant (cleanTitle it.title) (cleanDesc it.description) = false →
      normalizeItem it src now = Except.ok none) ∧
    ∀ (net : String → FetchOutcome) (now : Nat) (a : Item),
      inResponse (handler net now) a → isRelevant a.title a.description = true := by
  constructor
  · intro it src now h
    have hp : ¬ passesChecks it = true := by
      rw [passesChecks, h]
      simp
    rw [normalizeItem, if_neg hp]
  · intro net now a h
    obtain ⟨it, src, ms, _, hp, _, ha⟩ := handler_provenance h
    rw [passesChecks, Bool.and_eq_true] at hp
    rw [ha]
    exact hp.2

/-- C6 witness: the keyword-free, anchor-free entry normalizes to `none`,
and a concrete response article satisfies the relevance predicate. -/
theorem claim_C6_witness :
    normalizeItem irrelevantRaw srcHindu 3 = Except.ok none ∧
    isRelevant (mkNorm oneItemRaw srcHindu 1700000000000).title
      (mkNorm oneItemRaw srcHindu 1700000000000).description = true :=
  ⟨claim_C6.1 irrelevantRaw srcHindu 3 (by decide),
   claim_C6.2 oneItemNet 1700000000000 (mkNorm oneItemRaw srcHindu 1700000000000) (by decide)⟩

/-- C7: For every relevant item, the assigned topic labels are the
matching topics in taxonomy enumeration order truncated to the first
three; an item matching exactly topics A then B receives exactly
`[A, B]`, and an item matching no topic receives exactly `["General"]`. -/
theorem claim_C7 (title description : String) :
    (specMatchedTopics title description ≠ [] →
      detectTopics title description = (specMatchedTopics title description).take 3) ∧
    (∀ A B, specMatchedTopics title description = [A, B] →
      detectTopics title description = [A, B]) ∧
    (specMatchedTopics title description = [] →
      detectTopics title description = ["General"]) := by
  have hloop : detectTopicsLoop (jsToLower (title ++ " " ++ description)) UPSC_TOPICS =
      specMatchedTopics title description := by
    rw [specMatchedTopics]
    exact detectTopicsLoop_eq_filter _ _
  refine ⟨?_, ?_, ?_⟩
  · intro hne
    simp only [detectTopics, hloop]
    cases hsm : specMatchedTopics title description with
    | nil => exact absurd hsm hne
    | cons t ts => simp
  · intro A B hAB
    simp only [detectTopics, hloop, hAB]
    rfl
  · intro hempty
    simp only [detectTopics, hloop, hempty]
    rfl

/-- C7 witness: the spec's §8 example matches exactly Polity & Governance
then Economy and is labelled with both; a keyword-free text is labelled
`["General"]`. -/
theorem claim_C7_witness :
    detectTopics "Parliament passes new bill on GST" "reform" =
      ["Polity & Governance", "Economy"] ∧
    detectTopics "zzz" "yyy" = ["General"] :=
  ⟨(claim_C7 "Parliament passes new bill on GST" "reform").2.1
      "Polity & Governance" "Economy" (by decide),
   (claim_C7 "zzz" "yyy").2.2 (by decide)⟩

/-- C9: Every article object in the response carries a `topics` list with
at least one and at most three labels. -/
theorem claim_C9 (net : String → FetchOutcome) (now : Nat) (a : Item)
    (h : inResponse (handler net now) a) :
    1 ≤ a.topics.length ∧ a.topics.length ≤ 3 := by
  obtain ⟨it, src, ms, _, _, _, ha⟩ := handler_provenance h
  rw [ha]
  exact detectTopics_length (cleanTitle it.title) (cleanDesc it.description)

/-- C9 witness: the concrete response article of `oneItemNet` carries two
labels, within the required bounds. -/
theorem claim_C9_witness :
    1 ≤ (mkNorm oneItemRaw srcHindu 1700000000000).topics.length ∧
      (mkNorm oneItemRaw srcHindu 1700000000000).topics.length ≤ 3 :=
  claim_C9 oneItemNet 1700000000000 (mkNorm oneItemRaw srcHindu 1700000000000) (by decide)

/-- C8: If one feed endpoint fails (non-2xx, network error, timeout or
parse exception — all the `FetchOutcome.failure` cases) while the others
succeed, the handler still returns status 200 and exactly the response it
would produce were that endpoint an empty feed: the items of the
succeeding endpoints only.  No exception escapes `parseFeed`, which is
total on every outcome. -/
theorem claim_C8 (net : String → FetchOutcome) (now : Nat) (url : String)
    (h : net url = FetchOutcome.failure) :
    (handler net now).statusCode = 200 ∧
    handler net now =
      handler (fun u => if u = url then FetchOutcome.success [] else net u) now := by
  constructor
  · rfl
  · have he : endpointResults (fun u => if u = url then FetchOutcome.success [] else net u) now
        = endpointResults net now := by
      apply endpointResults_congr
      intro s hs u hu
      by_cases huu : u = url
      · rw [if_pos huu, huu, h]
        rfl
      · rw [if_neg huu]
    rw [handler, handler, he]

/-- C8 witness: with the one-item network, a failing Indian Express
endpoint contributes nothing and the response equals the one where that
endpoint returns an empty feed. -/
theorem claim_C8_witness :
    (handler oneItemNet 9).statusCode = 200 ∧
    handler oneItemNet 9 =
      handler (fun u => if u = "https://indianexpress.com/section/india/feed/"
        then FetchOutcome.success [] else oneItemNet u) 9 :=
  claim_C8 oneItemNet 9 "https://indianexpress.com/section/india/feed/" (by decide)

/-- C10: The response's `topics` field is always exactly the eight
taxonomy names and never includes "General"; every `topicGrouped` key is
a taxonomy name or "General"; and for the anchor-term-only input the
`topicGrouped` map does contain the key "General" — so the key set of
`topicGrouped` is not always a subset of the advertised `topics` list. -/
theorem claim_C10 :
    (∀ (net : String → FetchOutcome) (now : Nat), (handler net now).topics = TOPIC_NAMES) ∧
    "General" ∉ TOPIC_NAMES ∧
    (∀ (net : String → FetchOutcome) (now : Nat) (k : String) (pl : List Item),
      (k, pl) ∈ (handler net now).topicGrouped → k ∈ TOPIC_NAMES ∨ k = "General") ∧
    ∃ pl, ("General", pl) ∈ (handler anchorOnlyNet 0).topicGrouped := by
  refine ⟨fun net now => rfl, by decide, ?_, ?_⟩
  · intro net now k pl hkl
    have h2 := (@mem_buildTopicGrouped
      (sortArticles (dedupe (endpointResults net now).flatten)) (k, pl) hkl).2
    obtain ⟨x, hx, hkx⟩ := h2
    obtain ⟨it, src, ms, _, _, _, hxeq⟩ := handler_sorted_provenance hx
    rw [hxeq] at hkx
    exact detectTopics_mem (cleanTitle it.title) (cleanDesc it.description) hkx
  · exact ⟨[mkNorm anchorRaw srcHindu 5], by decide⟩

/-- C10 witness: the anchor-term-only run advertises the eight taxonomy
names, yet its `topicGrouped` key "General" is only covered by the
fallback disjunct. -/
theorem claim_C10_witness :
    (handler anchorOnlyNet 0).topics = TOPIC_NAMES ∧
    ("General" ∈ TOPIC_NAMES ∨ "General" = "General") :=
  ⟨claim_C10.1 anchorOnlyNet 0,
   claim_C10.2.2.1 anchorOnlyNet 0 "General" [mkNorm anchorRaw srcHindu 5] (by decide)⟩

theorem pushAssoc_preserve (k : String) (v : Item) :
    ∀ (m : List (String × List Item)) (t : String) (x : Item),
    (∃ kl ∈ m, kl.1 = t ∧ x ∈ kl.2) →
    ∃ kl ∈ pushAssoc m k v, kl.1 = t ∧ x ∈ kl.2 := by
  intro m
  induction m with
  | nil =>
    intro t x h
    simp at h
  | cons kv rest ih =>
    intro t x h
    obtain ⟨kl, hkl, hk, hxm⟩ := h
    rw [pushAssoc]
    by_cases hkk : kv.1 = k
    · rw [if_pos hkk]
      rcases List.mem_cons.1 hkl with he | he
      · refine ⟨(kv.1, kv.2 ++ [v]), List.mem_cons_self _ _, ?_, ?_⟩
        · rw [he] at hk
          exact hk
        · refine List.mem_append_left _ ?_
          rw [he] at hxm
          exact hxm
      · exact ⟨kl, List.mem_cons_of_mem _ he, hk, hxm⟩
    · rw [if_neg hkk]
      rcases List.mem_cons.1 hkl with he | he
      · refine ⟨kv, List.mem_cons_self _ _, ?_, ?_⟩
        · rw [he] at hk
          exact hk
        · rw [he] at hxm
          exact hxm
      · obtain ⟨kl2, hkl2, hk2, hx2⟩ := ih t x ⟨kl, he, hk, hxm⟩
        exact ⟨kl2, List.mem_cons_of_mem _ hkl2, hk2, hx2⟩

theorem pushAssoc_insert (m : List (String × List Item)) (t : String) (a : Item) :
    ∃ kl ∈ pushAssoc m t a, kl.1 = t ∧ a ∈ kl.2 := by
  induction m with
  | nil =>
    refine ⟨(t, [a]), ?_, rfl, ?_⟩
    · rw [pushAssoc]
      exact List.mem_singleton.2 rfl
    · exact List.mem_singleton.2 rfl
  | cons kv rest ih =>
    rw [pushAssoc]
    by_cases hkk : kv.1 = t
    · rw [if_pos hkk]
      exact ⟨(kv.1, kv.2 ++ [a]), List.mem_cons_self _ _, hkk,
        List.mem_append_right _ (List.mem_singleton.2 rfl)⟩
    · rw [if_neg hkk]
      obtain ⟨kl, hkl, hk, ha⟩ := ih
      exact ⟨kl, List.mem_cons_of_mem _ hkl, hk, ha⟩

theorem topicsFold_preserve (a : Item) (t : String) (x : Item) :
    ∀ (ts : List String) (m : List (String × List Item)),
    (∃ kl ∈ m, kl.1 = t ∧ x ∈ kl.2) →
    ∃ kl ∈ ts.foldl (fun m2 t2 => pushAssoc m2 t2 a) m, kl.1 = t ∧ x ∈ kl.2 := by
  intro ts
  induction ts with
  | nil =>
    intro m h
    exact h
  | cons t2 ts2 ih =>
    intro m h
    rw [List.foldl_cons]
    exact ih _ (pushAssoc_preserve t2 a _ t x h)

theorem topicsFold_insert (a : Item) :
    ∀ (ts : List String) (m : List (String × List Item)) (t : String),
    t ∈ ts →
    ∃ kl ∈ ts.foldl (fun m2 t2 => pushAssoc m2 t2 a) m, kl.1 = t ∧ a ∈ kl.2 := by
  intro ts
  induction ts with
  | nil =>
    intro m t h
    simp at h
  | cons t2 ts2 ih =>
    intro m t h
    rw [List.foldl_cons]
    rcases List.mem_cons.1 h with he | he
    · subst he
      exact topicsFold_preserve a t a ts2 _ (pushAssoc_insert m t a)
    · exact ih _ t he

/-- Every topic label of every deduplicated item gets a `topicGrouped`
entry holding that item. -/
theorem mem_buildTopicGrouped_of_mem {d : List Item} {a : Item} {t : String}
    (ha : a ∈ d) (ht : t ∈ a.topics) :
    ∃ kl ∈ buildTopicGrouped d, kl.1 = t ∧ a ∈ kl.2 := by
  rw [buildTopicGrouped]
  have main : ∀ (d2 : List Item) (m : List (String × List Item)),
      (a ∈ d2 ∨ ∃ kl ∈ m, kl.1 = t ∧ a ∈ kl.2) →
      ∃ kl ∈ d2.foldl (fun m x => x.topics.foldl (fun m2 t2 => pushAssoc m2 t2 x) m) m,
        kl.1 = t ∧ a ∈ kl.2 := by
    intro d2
    induction d2 with
    | nil =>
      intro m h
      rcases h with h | h
      · simp at h
      · exact h
    | cons x rest ih =>
      intro m h
      rw [List.foldl_cons]
      rcases h with h | h
      · rcases List.mem_cons.1 h with he | he
        · subst he
          exact ih _ (Or.inr (topicsFold_insert a a.topics m t ht))
        · exact ih _ (Or.inl he)
      · exact ih _ (Or.inr (topicsFold_preserve x t a x.topics m h))
  exact main d [] (Or.inl ha)

theorem chainLt_pairwise : ∀ (l : List Nat), chainLt l = true → l.Pairwise (· < ·)
  | [], _ => List.Pairwise.nil
  | [_], _ => by simp
  | a :: b :: rest, h => by
    rw [chainLt, Bool.and_eq_true] at h
    have hab : a < b := of_decide_eq_true h.1
    have hrest := chainLt_pairwise (b :: rest) h.2
    refine List.Pairwise.cons ?_ hrest
    intro x hx
    rcases List.mem_cons.1 hx with he | he
    · exact he ▸ hab
    · exact Nat.lt_trans hab ((List.pairwise_cons.1 hrest).1 x he)

/-- Strictly increasing key numbers witness pairwise-distinct dedup keys. -/
theorem pairwise_key_ne_of_chainLt {l : List Item}
    (h : chainLt (l.map keyNum) = true) :
    l.Pairwise fun a b => dedupKey a.title ≠ dedupKey b.title := by
  have hp2 := List.pairwise_map.1 (chainLt_pairwise _ h)
  refine hp2.imp ?_
  intro a b hlt heq
  have he2 : keyNum a = keyNum b := by
    rw [keyNum, keyNum, heq]
  rw [he2] at hlt
  exact Nat.lt_irrefl _ hlt

/-- A list of validly-titled items with pairwise-distinct dedup keys,
none already seen, passes the dedup filter unchanged. -/
theorem dedupeAux_eq_self : ∀ (seen : List String) (l : List Item),
    (∀ x ∈ l, ¬ x.title = "") →
    l.Pairwise (fun a b => dedupKey a.title ≠ dedupKey b.title) →
    (∀ x ∈ l, ¬ dedupKey x.title ∈ seen) →
    dedupeAux seen l = l := by
  intro seen l
  induction l generalizing seen with
  | nil => intro _ _ _; rfl
  | cons a rest ih =>
    intro htitle hpair hseen
    rw [dedupeAux]
    rw [if_neg (htitle a (List.mem_cons_self a rest))]
    have hc : ¬ seen.contains (dedupKey a.title) = true :=
      fun hc => hseen a (List.mem_cons_self a rest) (containsIffMem.1 hc)
    rw [if_neg hc]
    congr 1
    refine ih _ (fun x hx => htitle x (List.mem_cons_of_mem _ hx))
      ((List.pairwise_cons.1 hpair).2) ?_
    intro x hx hmem
    rcases List.mem_cons.1 hmem with he | he
    · exact (List.pairwise_cons.1 hpair).1 x hx he.symm
    · exact hseen x (List.mem_cons_of_mem _ hx) he

/-- In a list sorted by publish instant descending, with no duplicates
and at least 251 entries, an element of strictly minimal publish instant
cannot be among the first 250. -/
theorem not_mem_take_of_strict_min {l : List Item} {tgt : Item}
    (hs : l.Pairwise byDateDesc) (hnd : l.Nodup)
    (hmin : ∀ x ∈ l, x ≠ tgt → tgt.pubDate < x.pubDate)
    (hlen : 251 ≤ l.length) : ¬ tgt ∈ l.take 250 := by
  intro htk
  have hsplit : l = l.take 250 ++ l.drop 250 := (List.take_append_drop 250 l).symm
  have hdrop_ne : l.drop 250 ≠ [] := by
    intro h0
    have h1 : (l.drop 250).length = l.length - 250 := List.length_drop 250 l
    rw [h0] at h1
    simp at h1
    omega
  obtain ⟨z, hz⟩ := List.exists_mem_of_ne_nil _ hdrop_ne
  have hz_l : z ∈ l := (List.drop_sublist 250 l).subset hz
  have hrel : byDateDesc tgt z := by
    have hp : (l.take 250 ++ l.drop 250).Pairwise byDateDesc := by
      rw [← hsplit]
      exact hs
    exact (List.pairwise_append.1 hp).2.2 tgt htk z hz
  by_cases hzt : z = tgt
  · have hnd2 : (l.take 250 ++ l.drop 250).Nodup := by
      rw [← hsplit]
      exact hnd
    exact List.disjoint_of_nodup_append hnd2 htk (hzt ▸ hz)
  · exact Nat.lt_irrefl _ (Nat.lt_of_lt_of_le (hmin z hz_l hzt) hrel)

set_option maxRecDepth 40000 in
set_option maxHeartbeats 4000000 in
/-- C1 counterexample: with all 14 endpoints full (280 deduplicated
items), the strictly oldest item (`overflowTarget`, link "TT") sits in a
`topicGrouped` list while no article of the capped top-level list
carries its identifier — refuting "every article in a group map also
appears, by identifier, in `articles`". -/
theorem claim_C1_counterexample :
    ∃ kl ∈ (handler overflowNet 0).topicGrouped, ∃ a ∈ kl.2,
      ∀ b ∈ (handler overflowNet 0).articles, b.id ≠ a.id := by
  have hchain : chainLt ((endpointResults overflowNet 0).flatten.map keyNum) = true := by
    decide
  have hscan : ((endpointResults overflowNet 0).flatten.all fun x =>
      !(x.title == "") &&
        (x == overflowTarget ||
          (decide (overflowTarget.pubDate < x.pubDate) &&
            !(x.id == overflowTarget.id)))) = true := by
    decide
  have hlen : (endpointResults overflowNet 0).flatten.length = 280 := by decide
  have hmemf : overflowTarget ∈ (endpointResults overflowNet 0).flatten := by decide
  have htop : "Polity & Governance" ∈ overflowTarget.topics := by decide
  have hpairkey : (endpointResults overflowNet 0).flatten.Pairwise
      (fun a b => dedupKey a.title ≠ dedupKey b.title) :=
    pairwise_key_ne_of_chainLt hchain
  have htitle : ∀ x ∈ (endpointResults overflowNet 0).flatten, ¬ x.title = "" := by
    intro x hx he
    have h0 := List.all_eq_true.1 hscan x hx
    rw [Bool.and_eq_true] at h0
    have h1 := h0.1
    rw [he] at h1
    simp at h1
  have hother : ∀ x ∈ (endpointResults overflowNet 0).flatten,
      x = overflowTarget ∨
        (overflowTarget.pubDate < x.pubDate ∧ x.id ≠ overflowTarget.id) := by
    intro x hx
    have h0 := List.all_eq_true.1 hscan x hx
    rw [Bool.and_eq_true] at h0
    have h1 := h0.2
    rw [Bool.or_eq_true] at h1
    rcases h1 with h1 | h1
    · exact Or.inl (eq_of_beq h1)
    · rw [Bool.and_eq_true] at h1
      refine Or.inr ⟨of_decide_eq_true h1.1, ?_⟩
      intro he
      rw [he] at h1
      simp at h1
  have hded : dedupe (endpointResults overflowNet 0).flatten
      = (endpointResults overflowNet 0).flatten :=
    dedupeAux_eq_self [] _ htitle hpairkey (by simp)
  have hsortmem : overflowTarget ∈ sortArticles (dedupe (endpointResults overflowNet 0).flatten) := by
    rw [hded]
    exact mem_sortArticles.2 hmemf
  have hsortlen : (sortArticles (dedupe (endpointResults overflowNet 0).flatten)).length = 280 := by
    rw [hded, sortArticles_length, hlen]
  have hsortpair : (sortArticles (dedupe (endpointResults overflowNet 0).flatten)).Pairwise
      (fun a b => dedupKey a.title ≠ dedupKey b.title) := by
    rw [hded]
    exact sortArticles_pairwise_ne _ hpairkey
  have hnodup : (sortArticles (dedupe (endpointResults overflowNet 0).flatten)).Nodup := by
    refine hsortpair.imp ?_
    intro a b hk he
    exact hk (by rw [he])
  have hmin : ∀ x ∈ sortArticles (dedupe (endpointResults overflowNet 0).flatten),
      x ≠ overflowTarget → overflowTarget.pubDate < x.pubDate := by
    intro x hx hne
    have hx2 : x ∈ (endpointResults overflowNet 0).flatten := by
      rw [hded] at hx
      exact mem_sortArticles.1 hx
    rcases hother x hx2 with h | h
    · exact absurd h hne
    · exact h.1
  have hnotake : ¬ overflowTarget ∈
      (sortArticles (dedupe (endpointResults overflowNet 0).flatten)).take 250 :=
    not_mem_take_of_strict_min (sortArticles_sorted _) hnodup hmin
      (by rw [hsortlen]; omega)
  obtain ⟨kl, hkl, _, hmem2⟩ := mem_buildTopicGrouped_of_mem hsortmem htop
  refine ⟨kl, hkl, overflowTarget, hmem2, ?_⟩
  intro b hb heq
  have hb1 : b ∈ (sortArticles (dedupe (endpointResults overflowNet 0).flatten)).take 250 := hb
  have hbne : b ≠ overflowTarget := by
    intro he
    rw [he] at hb1
    exact hnotake hb1
  have hb2 : b ∈ (endpointResults overflowNet 0).flatten := by
    have h3 := List.mem_of_mem_take hb1
    rw [hded] at h3
    exact mem_sortArticles.1 h3
  rcases hother b hb2 with h | h
  · exact hbne h
  · exact h.2 heq

/-- C1 amended: every article in any `grouped` or `topicGrouped` list is
a member of the full sorted deduplicated working list (of which
`articles` is the first 250); whenever the deduplicated `total` is at
most 250, it also appears, by identifier, in the top-level `articles`
list.  (Beyond the cap, group maps keep items that `articles` drops.) -/
theorem claim_C1_amended (net : String → FetchOutcome) (now : Nat) :
    (∀ kl ∈ (handler net now).grouped, ∀ a ∈ kl.2,
      a ∈ sortArticles (dedupe (endpointResults net now).flatten)) ∧
    (∀ kl ∈ (handler net now).topicGrouped, ∀ a ∈ kl.2,
      a ∈ sortArticles (dedupe (endpointResults net now).flatten)) ∧
    ((handler net now).total ≤ 250 →
      ∀ kl ∈ (handler net now).grouped ++ (handler net now).topicGrouped,
        ∀ a ∈ kl.2, ∃ b ∈ (handler net now).articles, b.id = a.id) := by
  refine ⟨?_, ?_, ?_⟩
  · intro kl hkl a ha
    exact mem_buildGrouped hkl ha
  · intro kl hkl a ha
    exact (mem_buildTopicGrouped hkl).1 a ha
  · intro htot kl hkl a ha
    have hmem : a ∈ sortArticles (dedupe (endpointResults net now).flatten) := by
      rcases List.mem_append.1 hkl with hkl | hkl
      · exact mem_buildGrouped hkl ha
      · exact (mem_buildTopicGrouped hkl).1 a ha
    refine ⟨a, ?_, rfl⟩
    show a ∈ (sortArticles (dedupe (endpointResults net now).flatten)).take 250
    rw [List.take_of_length_le htot]
    exact hmem

/-- C1 amended witness: in the one-item run (total 1 ≤ 250) the grouped
item is in the working list and appears, by identifier, in `articles`. -/
theorem claim_C1_amended_witness :
    mkNorm oneItemRaw srcHindu 1700000000000 ∈
      sortArticles (dedupe (endpointResults oneItemNet 1700000000000).flatten) ∧
    ∃ b ∈ (handler oneItemNet 1700000000000).articles,
      b.id = (mkNorm oneItemRaw srcHindu 1700000000000).id :=
  ⟨(claim_C1_amended oneItemNet 1700000000000).1
      ("hindu", [mkNorm oneItemRaw srcHindu 1700000000000]) (by decide)
      (mkNorm oneItemRaw srcHindu 1700000000000) (by decide),
   (claim_C1_amended oneItemNet 1700000000000).2.2 (by decide)
      ("hindu", [mkNorm oneItemRaw srcHindu 1700000000000]) (by decide)
      (mkNorm oneItemRaw srcHindu 1700000000000) (by decide)⟩

/-- C2 counterexample: an entry whose present publish-date is unparseable
is not defaulted and kept — evaluating its object literal throws, the
endpoint-level `catch` returns `[]`, and the parseable sibling entry of
the same endpoint is dropped with it (alone, the sibling would have been
returned). -/
theorem claim_C2_counterexample :
    parseFeed (FetchOutcome.success [badDateRaw, goodDateRaw]) srcHindu 1000 = [] ∧
    parseFeed (FetchOutcome.success [goodDateRaw]) srcHindu 1000 =
      [mkNorm goodDateRaw srcHindu 42] := by
  decide

/-- C2 amended: an entry whose publish-time fields are all absent is
normalized with its publish instant defaulted to the current time —
provided no entry of that endpoint's first 20 resolves to an unparseable
present date; if some checked entry does, the endpoint's parse throws and
the catch returns an empty list for the whole endpoint (endpoint-level,
not item-level, recovery). -/
theorem claim_C2_amended :
    (∀ (its : List RawItem) (src : Source) (now : Nat) (it : RawItem),
      it ∈ its.take 20 →
      it.pubDate = none → it.updated = none → it.dcDate = none →
      passesChecks it = true →
      (∀ j ∈ its.take 20, resolveRawDate j now ≠ DateVal.invalid) →
      mkNorm it src now ∈ parseFeed (FetchOutcome.success its) src now ∧
        (mkNorm it src now).pubDate = now) ∧
    ∀ (its : List RawItem) (src : Source) (now : Nat) (it : RawItem),
      it ∈ its.take 20 → passesChecks it = true →
      resolveRawDate it now = DateVal.invalid →
      parseFeed (FetchOutcome.success its) src now = [] := by
  constructor
  · intro its src now it hit hpd hud hdd hp hno
    obtain ⟨out, hout, hmem⟩ := traverseItems_ok_of_no_invalid hno
    have hres : resolveRawDate it now = DateVal.valid now := by
      rw [resolveRawDate, hpd, hud, hdd]
      rfl
    constructor
    · rw [parseFeed, hout]
      exact hmem it hit hp now hres
    · rfl
  · intro its src now it hit hp hd
    obtain ⟨e, he⟩ := traverseItems_error_of_invalid hit hp hd
    rw [parseFeed, he]

/-- C2 amended witness: the all-absent-dates entry is kept with publish
instant 555 (the current time), and the endpoint with the unparseable
date returns the empty list. -/
theorem claim_C2_amended_witness :
    (mkNorm absentDateRaw srcHindu 555 ∈
        parseFeed (FetchOutcome.success [absentDateRaw]) srcHindu 555 ∧
      (mkNorm absentDateRaw srcHindu 555).pubDate = 555) ∧
    parseFeed (FetchOutcome.success [badDateRaw, goodDateRaw]) srcHindu 555 = [] :=
  ⟨claim_C2_amended.1 [absentDateRaw] srcHindu 555 absentDateRaw (by decide)
      (by decide) (by decide) (by decide) (by decide) (by decide),
   claim_C2_amended.2 [badDateRaw, goodDateRaw] srcHindu 555 badDateRaw
      (by decide) (by decide) (by decide)⟩
